import Mathlib

/-!
Shallow embedding of the tile-parallel Mandelbrot renderer
(src/p5.js.mandelbrot1.js).  JavaScript numbers are modelled by exact
rationals; the transcendental functions Math.log and Math.sqrt are
abstract parameters (rlog, rsqrt) of every definition that uses them,
so all definitions stay executable.
-/

namespace Mandel

/-! ### Escape-time engine (worker script, lines 160-170)

The while loop `while (zx2 + zy2 < 4 && iter < maxIter)` is embedded by
recursion on the remaining iteration budget `fuel = maxIter - iter`:
the guard `iter < maxIter` holds exactly when `fuel > 0`. -/

def mandelAux (cx cy : ℚ) : ℕ → ℚ → ℚ → ℚ → ℚ → ℕ → ℚ × ℚ × ℕ
  | 0, _, _, zx2, zy2, iter => (zx2, zy2, iter)
  | fuel + 1, zx, zy, zx2, zy2, iter =>
    if zx2 + zy2 < 4 then
      let zy' := 2 * zx * zy + cy
      let zx' := zx2 - zy2 + cx
      mandelAux cx cy fuel zx' zy' (zx' * zx') (zy' * zy') (iter + 1)
    else (zx2, zy2, iter)

/-- The worker's per-pixel iteration: from `zx = zy = zx2 = zy2 = 0`,
`iter = 0`, returns the final `(zx2, zy2, iter)`. -/
def mandelbrot (cx cy : ℚ) (maxIter : ℕ) : ℚ × ℚ × ℕ :=
  mandelAux cx cy maxIter 0 0 0 0 0

/-! ### JavaScript numeric helpers

`jsTrunc` rounds toward zero; `jsMod a b = a - b * trunc (a / b)` is the
JavaScript `%` operator on numbers (sign follows the dividend).
`jsRound` is Math.round (half away from zero for nonnegative inputs,
i.e. floor of x + 1/2).  `clampByte` is the store into a
Uint8ClampedArray of an integer value. -/

def jsTrunc (q : ℚ) : ℤ := if q < 0 then ⌈q⌉ else ⌊q⌋

def jsMod (a b : ℚ) : ℚ := a - b * (jsTrunc (a / b) : ℤ)

def jsRound (x : ℚ) : ℤ := ⌊x + 1 / 2⌋

def clampByte (z : ℤ) : ℕ := min z.toNat 255

/-! ### Worker message (renderTileWithWorkers, lines 79-94)

Exactly the fields of the `postMessage` record; note there is no
escape-radius field. -/

structure Msg where
  tileWidth : ℕ
  tileHeight : ℕ
  startYInTile : ℕ
  endYInTile : ℕ
  fullWidth : ℕ
  fullHeight : ℕ
  tileOffsetX : ℕ
  tileOffsetY : ℕ
  maxIter : ℕ
  cenX : ℚ
  cenY : ℚ
  zoom : ℚ
  aspect : ℚ
  deriving DecidableEq

/-! ### Coordinate mapper (worker script, lines 144-157) -/

def xScale (m : Msg) : ℚ := m.zoom * 2 * m.aspect / m.fullWidth

def yScale (m : Msg) : ℚ := m.zoom * 2 / m.fullHeight

/-- `cx = (globalX - fullWidth/2) * xScale + cenX` with
`globalX = tileOffsetX + x`. -/
def cxAt (m : Msg) (x : ℕ) : ℚ :=
  (((m.tileOffsetX + x : ℕ) : ℚ) - (m.fullWidth : ℚ) / 2) * xScale m + m.cenX

/-- `cy = (globalY - fullHeight/2) * yScale + cenY` with
`globalY = tileOffsetY + y`. -/
def cyAt (m : Msg) (y : ℕ) : ℚ :=
  (((m.tileOffsetY + y : ℕ) : ℚ) - (m.fullHeight : ℚ) / 2) * yScale m + m.cenY

/-! ### HSB to RGB conversion (worker script, lines 236-262) -/

def hsbToRgb (h s v : ℚ) : ℤ × ℤ × ℤ :=
  let h' := jsMod (jsMod h 360 + 360) 360
  let s' := max 0 (min 100 s) / 100
  let v' := max 0 (min 100 v) / 100
  let i : ℤ := ⌊h' / 60⌋
  let f := h' / 60 - (i : ℚ)
  let p := v' * (1 - s')
  let q := v' * (1 - s' * f)
  let t := v' * (1 - s' * (1 - f))
  let rgb : ℚ × ℚ × ℚ :=
    if i % 6 = 0 then (v', t, p)
    else if i % 6 = 1 then (q, v', p)
    else if i % 6 = 2 then (p, v', t)
    else if i % 6 = 3 then (p, q, v')
    else if i % 6 = 4 then (t, p, v')
    else if i % 6 = 5 then (v', p, q)
    else (0, 0, 0)
  (jsRound (rgb.1 * 255), jsRound (rgb.2.1 * 255), jsRound (rgb.2.2 * 255))

/-! ### Smooth color mapper (worker script, lines 179-196)

`rlog` and `rsqrt` stand for Math.log and Math.sqrt; `rlog 2` plays the
role of the constant Math.LN2. -/

def escapeColor (rlog rsqrt : ℚ → ℚ) (maxIter iter : ℕ) (zx2 zy2 : ℚ) :
    ℤ × ℤ × ℤ :=
  let zn := rsqrt (zx2 + zy2)
  let safeZn := max zn (1 / 10000000000)
  let nu := rlog (rlog safeZn / rlog 2) / rlog 2
  let smoothIter := (iter : ℚ) + 1 - nu
  let hue := jsMod (smoothIter / (maxIter : ℚ) * 1080) 360
  let saturation : ℚ := 125
  let brightness :=
    if smoothIter < (maxIter : ℚ) * (1 / 10) then
      min 100 (smoothIter / (maxIter : ℚ) * 1000)
    else
      min 100 (30 + smoothIter / (maxIter : ℚ) * 70)
  let brightness' :=
    if (maxIter : ℚ) * (9 / 10) < (iter : ℚ) then
      brightness * (((maxIter : ℚ) - (iter : ℚ)) / ((maxIter : ℚ) * (1 / 10)))
    else brightness
  hsbToRgb hue saturation brightness'

/-- One pixel of the worker loop (lines 159-201): black `(0,0,0,255)` when
`iter === maxIter`, otherwise the smooth color with alpha 255. -/
def renderPixel (rlog rsqrt : ℚ → ℚ) (maxIter : ℕ) (cx cy : ℚ) : List ℕ :=
  let r := mandelbrot cx cy maxIter
  if r.2.2 = maxIter then
    [0, 0, 0, 255]
  else
    let rgb := escapeColor rlog rsqrt maxIter r.2.2 r.1 r.2.1
    [clampByte rgb.1, clampByte rgb.2.1, clampByte rgb.2.2, 255]

/-- One row `y` of the tile: pixels `x = 0 .. tileWidth - 1`, 4 bytes each. -/
def renderRow (rlog rsqrt : ℚ → ℚ) (m : Msg) (y : ℕ) : List ℕ :=
  ((List.range m.tileWidth).map
    (fun x => renderPixel rlog rsqrt m.maxIter (cxAt m x) (cyAt m y))).flatten

/-- The whole worker `onmessage` body: the strip buffer, rows
`startYInTile .. endYInTile - 1` concatenated in order. -/
def workerRender (rlog rsqrt : ℚ → ℚ) (m : Msg) : List ℕ :=
  ((List.range (m.endYInTile - m.startYInTile)).map
    (fun k => renderRow rlog rsqrt m (m.startYInTile + k))).flatten

/-! ### Tile geometry (setup, lines 29-54)

`tileWidth = floor(FULL_WIDTH / COLS)`, `tileX = COL * tileWidth`, and the
leftover `extraW = FULL_WIDTH - tileWidth * COLS` is added to the width of
the last column only (same for rows). -/

def tileOffset (full cols c : ℕ) : ℕ := c * (full / cols)

def tileSize (full cols c : ℕ) : ℕ :=
  full / cols + if c = cols - 1 then full - full / cols * cols else 0

/-! ### Strip scheduler (renderTileWithWorkers, lines 56-125)

`tileStripHeight = Math.ceil(tileHeight / WORKER_COUNT)`; strip `i` covers
rows `[i * s, min(i * s + s, tileHeight))`; a strip with `startY >= endY`
is skipped (its worker is terminated and the completion counter is
incremented at dispatch time). -/

def ceilDiv (a b : ℕ) : ℕ := (a + b - 1) / b

def stripStart (s i : ℕ) : ℕ := i * s

def stripEnd (s h i : ℕ) : ℕ := min (i * s + s) h

/-- Copy `data` into `buf` starting at byte offset `off` (the
`putImageData(imageData, 0, startYInTile)` step). -/
def writeAt (buf : List ℕ) (off : ℕ) (data : List ℕ) : List ℕ :=
  buf.take off ++ data ++ buf.drop (off + data.length)

/-- The message posted for strip `i` (same record, strip rows filled in). -/
def stripMsg (m0 : Msg) (s i : ℕ) : Msg :=
  { m0 with
    startYInTile := stripStart s i
    endYInTile := stripEnd s m0.tileHeight i }

/-- The tile buffer after every strip's result has been copied in:
strips are processed in index order, zero-row strips are skipped. -/
def assembleTile (rlog rsqrt : ℚ → ℚ) (m0 : Msg) (w : ℕ) : List ℕ :=
  (List.range w).foldl
    (fun buf i =>
      let s := ceilDiv m0.tileHeight w
      if stripEnd s m0.tileHeight i ≤ stripStart s i then buf
      else
        writeAt buf (stripStart s i * (m0.tileWidth * 4))
          (workerRender rlog rsqrt (stripMsg m0 s i)))
    (List.replicate (m0.tileWidth * m0.tileHeight * 4) 0)

/-- A single-threaded render of the whole tile, row by row. -/
def seqRender (rlog rsqrt : ℚ → ℚ) (m0 : Msg) : List ℕ :=
  ((List.range m0.tileHeight).map (fun y => renderRow rlog rsqrt m0 y)).flatten

/-! ### Completion counting (lines 63-77 and 105-116)

The dispatch loop pre-increments `completedWorkers` for every skipped
(zero-row) strip; afterwards each report increments it, and the save
action fires exactly when the counter reaches `WORKER_COUNT`. -/

/-- Indices of the strips actually dispatched (non-empty row range). -/
def dispatchedStrips (h w : ℕ) : List ℕ :=
  (List.range w).filter
    (fun i => stripStart (ceilDiv h w) i < stripEnd (ceilDiv h w) h i)

/-- One report event: increment the counter; latch the save flag when the
counter reaches `w`. -/
def schedStep (w : ℕ) (st : ℕ × Bool) (_i : ℕ) : ℕ × Bool :=
  (st.1 + 1, st.2 || decide (st.1 + 1 = w))

/-- Run the scheduler: counter starts at the number of skipped strips,
then the reports in `order` arrive one by one.  Returns the final counter
and whether the save action has fired. -/
def schedRun (h w : ℕ) (order : List ℕ) : ℕ × Bool :=
  order.foldl (schedStep w) (w - (dispatchedStrips h w).length, false)

/-! ### Whole-program configuration (lines 1-27)

The constants at the top of the file, as one record; `ESCAPE_RADIUS` is
declared at line 3 but never transmitted to any worker. -/

structure Config where
  maxIter : ℕ
  escapeRadius : ℚ
  fullWidth : ℕ
  fullHeight : ℕ
  rows : ℕ
  cols : ℕ
  row : ℕ
  col : ℕ
  cenX : ℚ
  cenY : ℚ
  zoom : ℚ
  workerCount : ℕ

/-- The source's constant values; the worker-pool size
`navigator.hardwareConcurrency + 2 || 4` is kept as a parameter. -/
def defaultConfig (workerCount : ℕ) : Config :=
  { maxIter := 4500
    escapeRadius := 4
    fullWidth := 56000
    fullHeight := 32000
    rows := 4
    cols := 4
    row := 3
    col := 3
    cenX := -1
    cenY := 0
    zoom := 1
    workerCount := workerCount }

/-- The base message `renderTileWithWorkers` builds from the configuration
(the strip rows are filled in per strip by `stripMsg`). -/
def msgOfConfig (cfg : Config) : Msg :=
  { tileWidth := tileSize cfg.fullWidth cfg.cols cfg.col
    tileHeight := tileSize cfg.fullHeight cfg.rows cfg.row
    startYInTile := 0
    endYInTile := 0
    fullWidth := cfg.fullWidth
    fullHeight := cfg.fullHeight
    tileOffsetX := tileOffset cfg.fullWidth cfg.cols cfg.col
    tileOffsetY := tileOffset cfg.fullHeight cfg.rows cfg.row
    maxIter := cfg.maxIter
    cenX := cfg.cenX
    cenY := cfg.cenY
    zoom := cfg.zoom
    aspect := (cfg.fullWidth : ℚ) / (cfg.fullHeight : ℚ) }

/-- The finished tile pixel buffer for one run of the program. -/
def tileRender (rlog rsqrt : ℚ → ℚ) (cfg : Config) : List ℕ :=
  assembleTile rlog rsqrt (msgOfConfig cfg) cfg.workerCount

/-- The bytes of rows `a .. b - 1` of the tile, concatenated (used to
relate strip buffers to the sequential render). -/
def rowsFlat (rlog rsqrt : ℚ → ℚ) (m : Msg) (a b : ℕ) : List ℕ :=
  ((List.range (b - a)).map (fun k => renderRow rlog rsqrt m (a + k))).flatten

/-- A concrete 3x2 tile at the left edge of an 8x6 image (for witnesses). -/
def msgA : Msg :=
  Msg.mk 3 2 0 0 8 6 0 0 5 0 0 1 (4 / 3)

/-- A concrete 5x4 tile of the same 8x6 image, shifted so that its local
pixel (2, 0) is the same global pixel as msgA's local (5, 1). -/
def msgB : Msg :=
  Msg.mk 5 4 1 2 8 6 3 1 5 0 0 1 (4 / 3)

/-- A tiny 2x3 tile render setup for the strip-reassembly witness. -/
def msgC : Msg :=
  Msg.mk 2 3 0 0 4 3 1 0 2 0 0 1 (4 / 3)

/-! ### Properties of the escape-time loop -/

lemma mandelAux_iter_le (cx cy : ℚ) (fuel : ℕ) :
    ∀ zx zy zx2 zy2 : ℚ, ∀ iter : ℕ,
      (mandelAux cx cy fuel zx zy zx2 zy2 iter).2.2 ≤ iter + fuel := by
  induction fuel with
  | zero => intro zx zy zx2 zy2 iter; simp [mandelAux]
  | succ n ih =>
    intro zx zy zx2 zy2 iter
    rw [mandelAux]
    by_cases h : zx2 + zy2 < 4
    · simp only [h, if_true]
      have := ih (zx2 - zy2 + cx) (2 * zx * zy + cy)
        ((zx2 - zy2 + cx) * (zx2 - zy2 + cx))
        ((2 * zx * zy + cy) * (2 * zx * zy + cy)) (iter + 1)
      omega
    · simp only [h, if_false]
      omega

lemma mandelAux_iter_ge (cx cy : ℚ) (fuel : ℕ) :
    ∀ zx zy zx2 zy2 : ℚ, ∀ iter : ℕ,
      iter ≤ (mandelAux cx cy fuel zx zy zx2 zy2 iter).2.2 := by
  induction fuel with
  | zero => intro zx zy zx2 zy2 iter; simp [mandelAux]
  | succ n ih =>
    intro zx zy zx2 zy2 iter
    rw [mandelAux]
    by_cases h : zx2 + zy2 < 4
    · simp only [h, if_true]
      have := ih (zx2 - zy2 + cx) (2 * zx * zy + cy)
        ((zx2 - zy2 + cx) * (zx2 - zy2 + cx))
        ((2 * zx * zy + cy) * (2 * zx * zy + cy)) (iter + 1)
      omega
    · simp only [h, if_false]
      omega

/-- If the loop stopped before exhausting its budget, the guard failed:
the final squared magnitude is at least 4. -/
lemma mandelAux_escaped (cx cy : ℚ) (fuel : ℕ) :
    ∀ zx zy zx2 zy2 : ℚ, ∀ iter : ℕ,
      (mandelAux cx cy fuel zx zy zx2 zy2 iter).2.2 < iter + fuel →
      4 ≤ (mandelAux cx cy fuel zx zy zx2 zy2 iter).1 +
          (mandelAux cx cy fuel zx zy zx2 zy2 iter).2.1 := by
  induction fuel with
  | zero => intro zx zy zx2 zy2 iter h; simp [mandelAux] at h
  | succ n ih =>
    intro zx zy zx2 zy2 iter h
    rw [mandelAux] at h ⊢
    by_cases hg : zx2 + zy2 < 4
    · simp only [hg, if_true] at h ⊢
      exact ih _ _ _ _ (iter + 1) (by omega)
    · simp only [hg, if_false]
      exact le_of_not_lt hg

lemma mandelAux_succ_pos (cx cy zx zy zx2 zy2 : ℚ) (iter fuel : ℕ)
    (h : zx2 + zy2 < 4) :
    mandelAux cx cy (fuel + 1) zx zy zx2 zy2 iter =
      mandelAux cx cy fuel (zx2 - zy2 + cx) (2 * zx * zy + cy)
        ((zx2 - zy2 + cx) * (zx2 - zy2 + cx))
        ((2 * zx * zy + cy) * (2 * zx * zy + cy)) (iter + 1) := by
  rw [mandelAux, if_pos h]

lemma mandelAux_succ_neg (cx cy zx zy zx2 zy2 : ℚ) (iter fuel : ℕ)
    (h : ¬zx2 + zy2 < 4) :
    mandelAux cx cy (fuel + 1) zx zy zx2 zy2 iter = (zx2, zy2, iter) := by
  rw [mandelAux, if_neg h]

lemma mandelbrot_iter_le (cx cy : ℚ) (maxIter : ℕ) :
    (mandelbrot cx cy maxIter).2.2 ≤ maxIter := by
  have := mandelAux_iter_le cx cy maxIter 0 0 0 0 0
  simpa [mandelbrot] using this

lemma mandelbrot_escaped (cx cy : ℚ) (maxIter : ℕ)
    (h : (mandelbrot cx cy maxIter).2.2 < maxIter) :
    4 ≤ (mandelbrot cx cy maxIter).1 + (mandelbrot cx cy maxIter).2.1 := by
  have := mandelAux_escaped cx cy maxIter 0 0 0 0 0
  simp only [mandelbrot] at h ⊢
  exact this (by omega)

lemma mandelbrot_iter_pos (cx cy : ℚ) (maxIter : ℕ) (h : 1 ≤ maxIter) :
    1 ≤ (mandelbrot cx cy maxIter).2.2 := by
  obtain ⟨n, rfl⟩ : ∃ n, maxIter = n + 1 := ⟨maxIter - 1, by omega⟩
  have h4 : (0 : ℚ) + 0 < 4 := by norm_num
  have := mandelAux_iter_ge cx cy n (0 - 0 + cx) (2 * 0 * 0 + cy)
    ((0 - 0 + cx) * (0 - 0 + cx)) ((2 * 0 * 0 + cy) * (2 * 0 * 0 + cy)) 1
  simpa [mandelbrot, mandelAux, h4] using this


/-! ### Bounds for the numeric helpers -/

lemma jsMod_nonneg (a b : ℚ) (hb : 0 < b) (ha : 0 ≤ a) : 0 ≤ jsMod a b := by
  have hq : 0 ≤ a / b := div_nonneg ha hb.le
  unfold jsMod jsTrunc
  rw [if_neg (not_lt.mpr hq)]
  have h1 : (⌊a / b⌋ : ℚ) ≤ a / b := Int.floor_le _
  have h2 : b * (⌊a / b⌋ : ℚ) ≤ b * (a / b) := by
    exact mul_le_mul_of_nonneg_left h1 hb.le
  have h3 : b * (a / b) = a := by
    field_simp
  linarith

lemma jsMod_upper (a b : ℚ) (hb : 0 < b) : jsMod a b < b := by
  unfold jsMod jsTrunc
  by_cases hq : a / b < 0
  · rw [if_pos hq]
    have h1 : a / b ≤ (⌈a / b⌉ : ℚ) := Int.le_ceil _
    have h2 : b * (a / b) ≤ b * (⌈a / b⌉ : ℚ) :=
      mul_le_mul_of_nonneg_left h1 hb.le
    have h3 : b * (a / b) = a := by field_simp
    linarith
  · rw [if_neg hq]
    have h1 : a / b < (⌊a / b⌋ : ℚ) + 1 := Int.lt_floor_add_one _
    have h2 : b * (a / b) < b * ((⌊a / b⌋ : ℚ) + 1) :=
      (mul_lt_mul_left hb).mpr h1
    have h3 : b * (a / b) = a := by field_simp
    nlinarith

lemma jsMod_lower (a b : ℚ) (hb : 0 < b) : -b < jsMod a b := by
  unfold jsMod jsTrunc
  by_cases hq : a / b < 0
  · rw [if_pos hq]
    have h1 : (⌈a / b⌉ : ℚ) < a / b + 1 := Int.ceil_lt_add_one _
    have h2 : b * (⌈a / b⌉ : ℚ) < b * (a / b + 1) :=
      (mul_lt_mul_left hb).mpr h1
    have h3 : b * (a / b) = a := by field_simp
    nlinarith
  · rw [if_neg hq]
    push_neg at hq
    have h1 : (⌊a / b⌋ : ℚ) ≤ a / b := Int.floor_le _
    have h2 : b * (⌊a / b⌋ : ℚ) ≤ b * (a / b) :=
      mul_le_mul_of_nonneg_left h1 hb.le
    have h3 : b * (a / b) = a := by field_simp
    linarith

/-- The double-mod normalization of the hue lands in `[0, 360)`. -/
lemma hsbNorm_bounds (h : ℚ) :
    0 ≤ jsMod (jsMod h 360 + 360) 360 ∧ jsMod (jsMod h 360 + 360) 360 < 360 := by
  have h360 : (0 : ℚ) < 360 := by norm_num
  have hlow : -360 < jsMod h 360 := jsMod_lower h 360 h360
  exact ⟨jsMod_nonneg _ _ h360 (by linarith), jsMod_upper _ _ h360⟩

/-- Rounding `c * 255` for `c` in `[0, 1]` yields an integer in `[0, 255]`. -/
lemma jsRound_byte (c : ℚ) (h0 : 0 ≤ c) (h1 : c ≤ 1) :
    0 ≤ jsRound (c * 255) ∧ jsRound (c * 255) ≤ 255 := by
  unfold jsRound
  constructor
  · exact Int.le_floor.mpr (by push_cast; linarith)
  · have hlt : ⌊c * 255 + 1 / 2⌋ < 256 := Int.floor_lt.mpr (by push_cast; linarith)
    omega

/-- The saturation/brightness clamp lands in `[0, 1]`. -/
lemma clamp01 (s : ℚ) :
    0 ≤ max 0 (min 100 s) / 100 ∧ max 0 (min 100 s) / 100 ≤ 1 := by
  constructor
  · exact div_nonneg (le_max_left _ _) (by norm_num)
  · rw [div_le_one (by norm_num)]
    exact max_le (by norm_num) (min_le_left _ _)

/-- All three output channels of `hsbToRgb` lie in `[0, 255]`, for every
input, including out-of-range saturation and arbitrary hue. -/
lemma hsbToRgb_range (h s v : ℚ) :
    0 ≤ (hsbToRgb h s v).1 ∧ (hsbToRgb h s v).1 ≤ 255 ∧
    0 ≤ (hsbToRgb h s v).2.1 ∧ (hsbToRgb h s v).2.1 ≤ 255 ∧
    0 ≤ (hsbToRgb h s v).2.2 ∧ (hsbToRgb h s v).2.2 ≤ 255 := by
  obtain ⟨hs0, hs1⟩ := clamp01 s
  obtain ⟨hv0, hv1⟩ := clamp01 v
  obtain ⟨hn0, hn1⟩ := hsbNorm_bounds h
  simp only [hsbToRgb]
  set h' := jsMod (jsMod h 360 + 360) 360 with hh'
  set s' := max 0 (min 100 s) / 100 with hs'
  set v' := max 0 (min 100 v) / 100 with hv'
  set i : ℤ := ⌊h' / 60⌋ with hi
  set f := h' / 60 - (i : ℚ) with hf
  have hf0 : 0 ≤ f := by
    rw [hf, hi]
    have := Int.floor_le (h' / 60)
    linarith
  have hf1 : f ≤ 1 := by
    rw [hf, hi]
    have := Int.lt_floor_add_one (h' / 60)
    linarith
  have hsf0 : 0 ≤ s' * f := mul_nonneg hs0 hf0
  have hsf1 : s' * f ≤ 1 := by nlinarith
  have hsg0 : 0 ≤ s' * (1 - f) := mul_nonneg hs0 (by linarith)
  have hsg1 : s' * (1 - f) ≤ 1 := by nlinarith
  have hp : 0 ≤ v' * (1 - s') ∧ v' * (1 - s') ≤ 1 :=
    ⟨mul_nonneg hv0 (by linarith), by nlinarith⟩
  have hq : 0 ≤ v' * (1 - s' * f) ∧ v' * (1 - s' * f) ≤ 1 :=
    ⟨mul_nonneg hv0 (by linarith), by nlinarith⟩
  have ht : 0 ≤ v' * (1 - s' * (1 - f)) ∧ v' * (1 - s' * (1 - f)) ≤ 1 :=
    ⟨mul_nonneg hv0 (by linarith), by nlinarith⟩
  have bv := jsRound_byte _ hv0 hv1
  have bp := jsRound_byte _ hp.1 hp.2
  have bq := jsRound_byte _ hq.1 hq.2
  have bt := jsRound_byte _ ht.1 ht.2
  have b0 := jsRound_byte 0 le_rfl (by norm_num)
  split_ifs with e0 e1 e2 e3 e4 e5
  · exact ⟨bv.1, bv.2, bt.1, bt.2, bp.1, bp.2⟩
  · exact ⟨bq.1, bq.2, bv.1, bv.2, bp.1, bp.2⟩
  · exact ⟨bp.1, bp.2, bv.1, bv.2, bt.1, bt.2⟩
  · exact ⟨bp.1, bp.2, bq.1, bq.2, bv.1, bv.2⟩
  · exact ⟨bt.1, bt.2, bp.1, bp.2, bv.1, bv.2⟩
  · exact ⟨bv.1, bv.2, bp.1, bp.2, bq.1, bq.2⟩
  · exact ⟨b0.1, b0.2, b0.1, b0.2, b0.1, b0.2⟩

/-! ### C1: tile-alignment of the coordinate mapper -/

/-- C1: the complex point computed by the worker depends only on the
global pixel position (`tileOffset + local`) and on the global render
parameters (`fullWidth`, `fullHeight`, `zoom`, `aspectRatio`, `center`):
two messages for different tiles or strips (any `tileWidth`,
`tileHeight`, `startYInTile`, `endYInTile`) that address the same global
pixel yield identical `(cx, cy)`. -/
theorem coordinate_mapper_alignment (m1 m2 : Msg) (x1 y1 x2 y2 : ℕ)
    (hgx : m1.tileOffsetX + x1 = m2.tileOffsetX + x2)
    (hgy : m1.tileOffsetY + y1 = m2.tileOffsetY + y2)
    (hfw : m1.fullWidth = m2.fullWidth) (hfh : m1.fullHeight = m2.fullHeight)
    (hz : m1.zoom = m2.zoom) (ha : m1.aspect = m2.aspect)
    (hcx : m1.cenX = m2.cenX) (hcy : m1.cenY = m2.cenY) :
    cxAt m1 x1 = cxAt m2 x2 ∧ cyAt m1 y1 = cyAt m2 y2 := by
  unfold cxAt cyAt xScale yScale
  rw [hgx, hgy, hfw, hfh, hz, ha, hcx, hcy]
  exact ⟨rfl, rfl⟩

/-- Witness for C1: global pixel (5, 1) of an 8x6 image reached through
two different tile geometries (a 3x2 tile at offset (0,0) and a 5x4 tile
at offset (3,1)) gets the same complex point. -/
theorem coordinate_mapper_alignment_witness :
    (msgA.tileOffsetX + 5 = msgB.tileOffsetX + 2 ∧
     msgA.tileOffsetY + 1 = msgB.tileOffsetY + 0) ∧
    (cxAt msgA 5 = cxAt msgB 2 ∧ cyAt msgA 1 = cyAt msgB 0) :=
  ⟨⟨by decide, by decide⟩,
   coordinate_mapper_alignment msgA msgB 5 1 2 0 (by decide) (by decide)
     rfl rfl rfl rfl rfl rfl⟩

/-! ### C2: escape-time engine postcondition -/

/-- C2 (amended): the escape threshold the loop actually tests is the
literal `4`, not a configurable `escapeRadiusSquared`.  For every
`(cx, cy)` and `maxIter ≥ 1`: the returned `iter` lies in `[0, maxIter]`;
`iter = maxIter` renders pure black `(0,0,0,255)`; otherwise
`iter < maxIter`, the final state satisfies `zx2 + zy2 ≥ 4`, and the
magnitude `sqrt(zx2 + zy2)` is what the smooth color mapper receives. -/
theorem escape_engine_postcondition (rlog rsqrt : ℚ → ℚ) (cx cy : ℚ)
    (maxIter : ℕ) (hm : 1 ≤ maxIter) :
    (mandelbrot cx cy maxIter).2.2 ≤ maxIter ∧
    ((mandelbrot cx cy maxIter).2.2 = maxIter →
      renderPixel rlog rsqrt maxIter cx cy = [0, 0, 0, 255]) ∧
    ((mandelbrot cx cy maxIter).2.2 < maxIter →
      4 ≤ (mandelbrot cx cy maxIter).1 + (mandelbrot cx cy maxIter).2.1 ∧
      renderPixel rlog rsqrt maxIter cx cy =
        [clampByte (escapeColor rlog rsqrt maxIter
            (mandelbrot cx cy maxIter).2.2
            (mandelbrot cx cy maxIter).1 (mandelbrot cx cy maxIter).2.1).1,
         clampByte (escapeColor rlog rsqrt maxIter
            (mandelbrot cx cy maxIter).2.2
            (mandelbrot cx cy maxIter).1 (mandelbrot cx cy maxIter).2.1).2.1,
         clampByte (escapeColor rlog rsqrt maxIter
            (mandelbrot cx cy maxIter).2.2
            (mandelbrot cx cy maxIter).1 (mandelbrot cx cy maxIter).2.1).2.2,
         255]) := by
  refine ⟨mandelbrot_iter_le cx cy maxIter, ?_, ?_⟩
  · intro h
    simp [renderPixel, h]
  · intro h
    refine ⟨mandelbrot_escaped cx cy maxIter h, ?_⟩
    simp [renderPixel, Nat.ne_of_lt h]

/-- Witness for C2 at `cx = cy = 2`, `maxIter = 10` (an escaping point). -/
theorem escape_engine_postcondition_witness :
    1 ≤ 10 ∧
    ((mandelbrot 2 2 10).2.2 ≤ 10 ∧
     ((mandelbrot 2 2 10).2.2 = 10 →
       renderPixel (fun q => q) (fun q => q) 10 2 2 = [0, 0, 0, 255]) ∧
     ((mandelbrot 2 2 10).2.2 < 10 →
       4 ≤ (mandelbrot 2 2 10).1 + (mandelbrot 2 2 10).2.1 ∧
       renderPixel (fun q => q) (fun q => q) 10 2 2 =
         [clampByte (escapeColor (fun q => q) (fun q => q) 10
             (mandelbrot 2 2 10).2.2
             (mandelbrot 2 2 10).1 (mandelbrot 2 2 10).2.1).1,
          clampByte (escapeColor (fun q => q) (fun q => q) 10
             (mandelbrot 2 2 10).2.2
             (mandelbrot 2 2 10).1 (mandelbrot 2 2 10).2.1).2.1,
          clampByte (escapeColor (fun q => q) (fun q => q) 10
             (mandelbrot 2 2 10).2.2
             (mandelbrot 2 2 10).1 (mandelbrot 2 2 10).2.1).2.2,
          255])) :=
  ⟨by decide,
   escape_engine_postcondition (fun q => q) (fun q => q) 2 2 10 (by decide)⟩

/-- Counterexample to C2 as stated: the claim quantifies over every
`escapeRadiusSquared > 0`, but the loop tests the literal 4.  At
`cx = cy = 2`, `maxIter = 10`, `escapeRadiusSquared = 100`: the point
escapes (`iter < maxIter`) yet the final `zx2 + zy2 = 8` is below 100. -/
theorem escape_engine_radius_counterexample :
    (0 : ℚ) < 100 ∧ (mandelbrot 2 2 10).2.2 < 10 ∧
    (mandelbrot 2 2 10).1 + (mandelbrot 2 2 10).2.1 < 100 := by
  have h1 : mandelAux (2 : ℚ) 2 10 0 0 0 0 0 = mandelAux 2 2 9 2 2 4 4 1 := by
    rw [show (10 : ℕ) = 9 + 1 from rfl,
      mandelAux_succ_pos _ _ _ _ _ _ _ _ (by norm_num)]
    norm_num
  have h2 : mandelAux (2 : ℚ) 2 9 2 2 4 4 1 = (4, 4, 1) := by
    rw [show (9 : ℕ) = 8 + 1 from rfl,
      mandelAux_succ_neg _ _ _ _ _ _ _ _ (by norm_num)]
  have h : mandelbrot 2 2 10 = (4, 4, 1) := by
    rw [mandelbrot, h1, h2]
  rw [h]
  norm_num

/-! ### C9: the loop always runs at least once -/

/-- C9: the initial state `zx2 = zy2 = 0` always passes the guard
`zx2 + zy2 < 4`, so for `maxIter ≥ 1` the loop body executes at least
once and the returned iteration count lies in `[1, maxIter]`; an escaped
pixel never reports `iter = 0`. -/
theorem escape_loop_runs_at_least_once (cx cy : ℚ) (maxIter : ℕ)
    (hm : 1 ≤ maxIter) :
    1 ≤ (mandelbrot cx cy maxIter).2.2 ∧
    (mandelbrot cx cy maxIter).2.2 ≤ maxIter :=
  ⟨mandelbrot_iter_pos cx cy maxIter hm, mandelbrot_iter_le cx cy maxIter⟩

/-- Witness for C9 at the origin with `maxIter = 1`. -/
theorem escape_loop_runs_at_least_once_witness :
    1 ≤ 1 ∧ (1 ≤ (mandelbrot 0 0 1).2.2 ∧ (mandelbrot 0 0 1).2.2 ≤ 1) :=
  ⟨by decide, escape_loop_runs_at_least_once 0 0 1 (by decide)⟩

/-! ### C10: the escape radius configuration does not influence pixels -/

/-- C10: the worker message carries no escape-radius field and the loop's
threshold is the literal 4, so two runs of the whole program whose
configurations differ only in `escapeRadius` (the `ESCAPE_RADIUS`
constant) produce identical tile pixel buffers. -/
theorem escape_radius_noninterference (rlog rsqrt : ℚ → ℚ) (cfg : Config)
    (e : ℚ) :
    tileRender rlog rsqrt { cfg with escapeRadius := e } =
      tileRender rlog rsqrt cfg :=
  rfl

/-! ### C7: HSB-to-RGB is total and range-safe -/

/-- C7: for every input `(h, s, v)` — any hue, the out-of-range
saturation 125 included — `hsbToRgb` returns three integers in
`[0, 255]`, and every pixel the worker emits carries a fixed fourth
(alpha) byte of 255. -/
theorem hsb_conversion_range_safe (h s v : ℚ) (rlog rsqrt : ℚ → ℚ)
    (maxIter : ℕ) (cx cy : ℚ) :
    (0 ≤ (hsbToRgb h s v).1 ∧ (hsbToRgb h s v).1 ≤ 255) ∧
    (0 ≤ (hsbToRgb h s v).2.1 ∧ (hsbToRgb h s v).2.1 ≤ 255) ∧
    (0 ≤ (hsbToRgb h s v).2.2 ∧ (hsbToRgb h s v).2.2 ≤ 255) ∧
    (renderPixel rlog rsqrt maxIter cx cy)[3]? = some 255 := by
  obtain ⟨a1, a2, b1, b2, c1, c2⟩ := hsbToRgb_range h s v
  refine ⟨⟨a1, a2⟩, ⟨b1, b2⟩, ⟨c1, c2⟩, ?_⟩
  simp only [renderPixel]
  split
  · rfl
  · rfl

/-! ### C6: the smooth color mapper computes the spec's formulas -/

/-- C6: for an escaped pixel (`iter < maxIter`) with final magnitude
`zn = sqrt(zx2 + zy2)`, the mapper colors it with
`smoothIter = iter + 1 - log(log(max(zn, 1e-10)) / log 2) / log 2`,
`hue = (smoothIter / maxIter * 1080) mod 360`, saturation 125, base
brightness `min(100, smoothIter/maxIter * 1000)` below the
`smoothIter < maxIter * 0.1` threshold and
`min(100, 30 + smoothIter/maxIter * 70)` at or above it, with the
brightness multiplied by `(maxIter - iter) / (maxIter * 0.1)` exactly
when `iter > maxIter * 0.9`. -/
theorem smooth_color_mapper_formula (rlog rsqrt : ℚ → ℚ)
    (maxIter iter : ℕ) (zx2 zy2 : ℚ) (hlt : iter < maxIter) :
    escapeColor rlog rsqrt maxIter iter zx2 zy2 =
      hsbToRgb
        (jsMod
          (((iter : ℚ) + 1 -
              rlog (rlog (max (rsqrt (zx2 + zy2)) (1 / 10000000000)) / rlog 2) /
                rlog 2) /
              (maxIter : ℚ) * 1080)
          360)
        125
        ((if ((iter : ℚ) + 1 -
              rlog (rlog (max (rsqrt (zx2 + zy2)) (1 / 10000000000)) / rlog 2) /
                rlog 2) < (maxIter : ℚ) * (1 / 10) then
            min 100
              (((iter : ℚ) + 1 -
                  rlog (rlog (max (rsqrt (zx2 + zy2)) (1 / 10000000000)) /
                      rlog 2) / rlog 2) /
                (maxIter : ℚ) * 1000)
          else
            min 100
              (30 +
                ((iter : ℚ) + 1 -
                    rlog (rlog (max (rsqrt (zx2 + zy2)) (1 / 10000000000)) /
                        rlog 2) / rlog 2) /
                  (maxIter : ℚ) * 70)) *
          (if (maxIter : ℚ) * (9 / 10) < (iter : ℚ) then
            ((maxIter : ℚ) - (iter : ℚ)) / ((maxIter : ℚ) * (1 / 10))
          else 1)) := by
  simp only [escapeColor]
  split_ifs <;> first | rfl | rw [mul_one]

/-- Witness for C6 at `iter = 0`, `maxIter = 1`, `zx2 = zy2 = 4`, with
the identity standing in for both transcendental oracles. -/
theorem smooth_color_mapper_formula_witness :
    0 < 1 ∧
    escapeColor (fun q => q) (fun q => q) 1 0 4 4 =
      hsbToRgb
        (jsMod
          (((0 : ℚ) + 1 -
              (fun q : ℚ => q)
                  ((fun q : ℚ => q)
                      (max ((fun q : ℚ => q) ((4 : ℚ) + 4)) (1 / 10000000000)) /
                    (fun q : ℚ => q) 2) /
                (fun q : ℚ => q) 2) /
              ((1 : ℕ) : ℚ) * 1080)
          360)
        125
        ((if ((0 : ℚ) + 1 -
              (fun q : ℚ => q)
                  ((fun q : ℚ => q)
                      (max ((fun q : ℚ => q) ((4 : ℚ) + 4)) (1 / 10000000000)) /
                    (fun q : ℚ => q) 2) /
                (fun q : ℚ => q) 2) < ((1 : ℕ) : ℚ) * (1 / 10) then
            min 100
              (((0 : ℚ) + 1 -
                  (fun q : ℚ => q)
                      ((fun q : ℚ => q)
                          (max ((fun q : ℚ => q) ((4 : ℚ) + 4))
                            (1 / 10000000000)) /
                        (fun q : ℚ => q) 2) /
                    (fun q : ℚ => q) 2) /
                ((1 : ℕ) : ℚ) * 1000)
          else
            min 100
              (30 +
                ((0 : ℚ) + 1 -
                    (fun q : ℚ => q)
                        ((fun q : ℚ => q)
                            (max ((fun q : ℚ => q) ((4 : ℚ) + 4))
                              (1 / 10000000000)) /
                          (fun q : ℚ => q) 2) /
                      (fun q : ℚ => q) 2) /
                  ((1 : ℕ) : ℚ) * 70)) *
          (if ((1 : ℕ) : ℚ) * (9 / 10) < ((0 : ℕ) : ℚ) then
            (((1 : ℕ) : ℚ) - ((0 : ℕ) : ℚ)) / (((1 : ℕ) : ℚ) * (1 / 10))
          else 1)) :=
  ⟨by decide,
   smooth_color_mapper_formula (fun q => q) (fun q => q) 1 0 4 4 (by decide)⟩

/-! ### C3: the tile grid partitions the full image -/

lemma tile_last_end (full cols : ℕ) (hc : 1 ≤ cols) :
    tileOffset full cols (cols - 1) + tileSize full cols (cols - 1) = full := by
  unfold tileOffset tileSize
  rw [if_pos rfl]
  have h1 : full / cols * cols ≤ full := Nat.div_mul_le_self full cols
  have h2 : (cols - 1) * (full / cols) + full / cols = cols * (full / cols) := by
    have hcc : cols - 1 + 1 = cols := by omega
    calc (cols - 1) * (full / cols) + full / cols
        = (cols - 1 + 1) * (full / cols) := (Nat.succ_mul _ _).symm
      _ = cols * (full / cols) := by rw [hcc]
  have h3 : full / cols * cols = cols * (full / cols) := Nat.mul_comm _ _
  omega

lemma tile_no_overlap (full cols g c1 c2 : ℕ) (hlt : c1 < c2) (h2c : c2 < cols)
    (h1 : g < tileOffset full cols c1 + tileSize full cols c1)
    (h2 : tileOffset full cols c2 ≤ g) : False := by
  unfold tileOffset tileSize at h1
  unfold tileOffset at h2
  by_cases hc1 : c1 = cols - 1
  · omega
  · rw [if_neg hc1] at h1
    have hs : (c1 + 1) * (full / cols) ≤ c2 * (full / cols) :=
      Nat.mul_le_mul_right _ (by omega)
    have hsm : (c1 + 1) * (full / cols) = c1 * (full / cols) + full / cols :=
      Nat.succ_mul _ _
    omega

lemma tile_mem_unique (full cols g c1 c2 : ℕ)
    (h1 : c1 < cols ∧ tileOffset full cols c1 ≤ g ∧
      g < tileOffset full cols c1 + tileSize full cols c1)
    (h2 : c2 < cols ∧ tileOffset full cols c2 ≤ g ∧
      g < tileOffset full cols c2 + tileSize full cols c2) : c1 = c2 := by
  rcases Nat.lt_trichotomy c1 c2 with h | h | h
  · exact absurd (tile_no_overlap full cols g c1 c2 h h2.1 h1.2.2 h2.2.1) id
  · exact h
  · exact absurd (tile_no_overlap full cols g c2 c1 h h1.1 h2.2.2 h1.2.1) id

lemma tile_mem_exists (full cols : ℕ) (hc : 1 ≤ cols) (g : ℕ) (hg : g < full) :
    ∃ c, c < cols ∧ tileOffset full cols c ≤ g ∧
      g < tileOffset full cols c + tileSize full cols c := by
  have hlast := tile_last_end full cols hc
  by_cases hq0 : full / cols = 0
  · refine ⟨cols - 1, by omega, ?_, by omega⟩
    unfold tileOffset
    rw [hq0]
    simp
  · by_cases hcase : g / (full / cols) < cols - 1
    · refine ⟨g / (full / cols), by omega, ?_, ?_⟩
      · unfold tileOffset
        exact Nat.div_mul_le_self g (full / cols)
      · unfold tileOffset tileSize
        rw [if_neg (by omega)]
        have hqpos : 0 < full / cols := Nat.pos_of_ne_zero hq0
        have hdm := Nat.div_add_mod g (full / cols)
        have hml : g % (full / cols) < full / cols := Nat.mod_lt g hqpos
        have hco : g / (full / cols) * (full / cols) =
            (full / cols) * (g / (full / cols)) := Nat.mul_comm _ _
        omega
    · refine ⟨cols - 1, by omega, ?_, by omega⟩
      push_neg at hcase
      have h1 : (cols - 1) * (full / cols) ≤ g / (full / cols) * (full / cols) :=
        Nat.mul_le_mul_right _ hcase
      have h2 : g / (full / cols) * (full / cols) ≤ g :=
        Nat.div_mul_le_self g (full / cols)
      unfold tileOffset
      omega

lemma tile_mem_1d (full cols : ℕ) (hc : 1 ≤ cols) (g : ℕ) (hg : g < full) :
    ∃! c, c < cols ∧ tileOffset full cols c ≤ g ∧
      g < tileOffset full cols c + tileSize full cols c := by
  obtain ⟨c, hcw⟩ := tile_mem_exists full cols hc g hg
  exact ⟨c, hcw, fun c' hc' => tile_mem_unique full cols g c' c hc' hcw⟩

lemma tileSize_sum (full cols : ℕ) (hc : 1 ≤ cols) :
    ∑ c ∈ Finset.range cols, tileSize full cols c = full := by
  unfold tileSize
  rw [Finset.sum_add_distrib, Finset.sum_const, Finset.card_range, smul_eq_mul]
  rw [Finset.sum_ite_eq' (Finset.range cols) (cols - 1)
    fun _ => full - full / cols * cols]
  rw [if_pos (Finset.mem_range.mpr (by omega))]
  have h1 : full / cols * cols ≤ full := Nat.div_mul_le_self full cols
  have h2 : cols * (full / cols) = full / cols * cols := Nat.mul_comm _ _
  omega

/-- C3: the tile rectangles of the ROWS x COLS grid — width
`floor(fullWidth/COLS)` plus the remainder in the last column, height
`floor(fullHeight/ROWS)` plus the remainder in the last row, at offsets
`(COL * floor(fullWidth/COLS), ROW * floor(fullHeight/ROWS))` — tile
`[0, fullWidth) x [0, fullHeight)` exactly: every pixel lies in exactly
one tile, and the total pixel count is `fullWidth * fullHeight`. -/
theorem tile_partition_complete (fullW fullH rows cols : ℕ)
    (hw : 1 ≤ fullW) (hh : 1 ≤ fullH) (hr : 1 ≤ rows) (hc : 1 ≤ cols) :
    (∀ gx gy, gx < fullW → gy < fullH →
      ∃! rc : ℕ × ℕ, (rc.1 < rows ∧ rc.2 < cols) ∧
        (tileOffset fullH rows rc.1 ≤ gy ∧
          gy < tileOffset fullH rows rc.1 + tileSize fullH rows rc.1) ∧
        (tileOffset fullW cols rc.2 ≤ gx ∧
          gx < tileOffset fullW cols rc.2 + tileSize fullW cols rc.2)) ∧
    (∑ r ∈ Finset.range rows, ∑ c ∈ Finset.range cols,
        tileSize fullH rows r * tileSize fullW cols c) = fullW * fullH := by
  constructor
  · intro gx gy hgx hgy
    obtain ⟨r, hrP, hru⟩ := tile_mem_1d fullH rows hr gy hgy
    obtain ⟨c, hcP, hcu⟩ := tile_mem_1d fullW cols hc gx hgx
    refine ⟨(r, c), ⟨⟨hrP.1, hcP.1⟩, ⟨hrP.2.1, hrP.2.2⟩, ⟨hcP.2.1, hcP.2.2⟩⟩, ?_⟩
    rintro ⟨r', c'⟩ ⟨⟨hr', hc'⟩, hyy, hxx⟩
    have e1 : r' = r := hru r' ⟨hr', hyy.1, hyy.2⟩
    have e2 : c' = c := hcu c' ⟨hc', hxx.1, hxx.2⟩
    rw [e1, e2]
  · rw [← Finset.sum_mul_sum]
    rw [tileSize_sum fullH rows hr, tileSize_sum fullW cols hc]
    exact Nat.mul_comm fullH fullW

/-- Witness for C3 on a 5x3 image cut into a 2x2 grid. -/
theorem tile_partition_complete_witness :
    (1 ≤ 5 ∧ 1 ≤ 3 ∧ 1 ≤ 2 ∧ 1 ≤ 2) ∧
    ((∀ gx gy, gx < 5 → gy < 3 →
      ∃! rc : ℕ × ℕ, (rc.1 < 2 ∧ rc.2 < 2) ∧
        (tileOffset 3 2 rc.1 ≤ gy ∧
          gy < tileOffset 3 2 rc.1 + tileSize 3 2 rc.1) ∧
        (tileOffset 5 2 rc.2 ≤ gx ∧
          gx < tileOffset 5 2 rc.2 + tileSize 5 2 rc.2)) ∧
    (∑ r ∈ Finset.range 2, ∑ c ∈ Finset.range 2,
        tileSize 3 2 r * tileSize 5 2 c) = 5 * 3) :=
  ⟨⟨by decide, by decide, by decide, by decide⟩,
   tile_partition_complete 5 3 2 2 (by decide) (by decide) (by decide)
     (by decide)⟩

/-! ### C5: strips partition the tile's row range -/

lemma ceilDiv_pos (h w : ℕ) (hh : 1 ≤ h) (hw : 1 ≤ w) : 1 ≤ ceilDiv h w := by
  unfold ceilDiv
  rw [Nat.le_div_iff_mul_le (by omega)]
  omega

lemma ceilDiv_mul_ge (h w : ℕ) (hw : 1 ≤ w) : h ≤ w * ceilDiv h w := by
  unfold ceilDiv
  have hdm := Nat.div_add_mod (h + w - 1) w
  have hml : (h + w - 1) % w < w := Nat.mod_lt _ (by omega)
  omega

lemma strip_mem_unique (s h y i1 i2 : ℕ)
    (h1 : stripStart s i1 ≤ y ∧ y < stripEnd s h i1)
    (h2 : stripStart s i2 ≤ y ∧ y < stripEnd s h i2) : i1 = i2 := by
  unfold stripStart stripEnd at h1 h2
  rcases Nat.lt_trichotomy i1 i2 with hlt | heq | hlt
  · exfalso
    have hstep : (i1 + 1) * s ≤ i2 * s := Nat.mul_le_mul_right _ (by omega)
    have hsm : (i1 + 1) * s = i1 * s + s := Nat.succ_mul _ _
    omega
  · exact heq
  · exfalso
    have hstep : (i2 + 1) * s ≤ i1 * s := Nat.mul_le_mul_right _ (by omega)
    have hsm : (i2 + 1) * s = i2 * s + s := Nat.succ_mul _ _
    omega

/-- C5 (amended): for tile height `H ≥ 1` and `W ≥ 1` workers, the strips
`[i*ceil(H/W), min((i+1)*ceil(H/W), H))` are pairwise disjoint with union
`[0, H)` (every row lies in exactly one strip), consecutive strips adjoin,
and the deviant strips form a suffix: any strip with fewer than
`ceil(H/W)` rows is followed only by empty strips (so more than one strip
may deviate from the nominal size, not only the last one — but at most
one is partial and all later ones are empty).  A strip is dispatched iff
it has at least one row; zero-row strips are skipped. -/
theorem strip_partition (h w : ℕ) (hh : 1 ≤ h) (hw : 1 ≤ w) :
    (∀ y, y < h → ∃! i, i < w ∧ stripStart (ceilDiv h w) i ≤ y ∧
        y < stripEnd (ceilDiv h w) h i) ∧
    (∀ i, stripEnd (ceilDiv h w) h i =
      min (stripStart (ceilDiv h w) (i + 1)) h) ∧
    (∀ i j, i < j → j < w →
      stripEnd (ceilDiv h w) h i - stripStart (ceilDiv h w) i < ceilDiv h w →
      stripEnd (ceilDiv h w) h j ≤ stripStart (ceilDiv h w) j) ∧
    (∀ i, i ∈ dispatchedStrips h w ↔
      i < w ∧ stripStart (ceilDiv h w) i < stripEnd (ceilDiv h w) h i) := by
  have hs1 : 1 ≤ ceilDiv h w := ceilDiv_pos h w hh hw
  have hws : h ≤ w * ceilDiv h w := ceilDiv_mul_ge h w hw
  refine ⟨?_, ?_, ?_, ?_⟩
  · intro y hy
    refine ⟨y / ceilDiv h w, ⟨?_, ?_, ?_⟩, ?_⟩
    · rw [Nat.div_lt_iff_lt_mul (by omega)]
      calc y < h := hy
        _ ≤ w * ceilDiv h w := hws
    · exact Nat.div_mul_le_self y (ceilDiv h w)
    · unfold stripEnd
      have hdm := Nat.div_add_mod y (ceilDiv h w)
      have hml : y % ceilDiv h w < ceilDiv h w := Nat.mod_lt _ (by omega)
      have hco : y / ceilDiv h w * ceilDiv h w =
          ceilDiv h w * (y / ceilDiv h w) := Nat.mul_comm _ _
      omega
    · intro i hi
      exact strip_mem_unique (ceilDiv h w) h y i (y / ceilDiv h w)
        ⟨hi.2.1, hi.2.2⟩
        ⟨Nat.div_mul_le_self y (ceilDiv h w), by
          unfold stripEnd
          have hdm := Nat.div_add_mod y (ceilDiv h w)
          have hml : y % ceilDiv h w < ceilDiv h w := Nat.mod_lt _ (by omega)
          have hco : y / ceilDiv h w * ceilDiv h w =
              ceilDiv h w * (y / ceilDiv h w) := Nat.mul_comm _ _
          omega⟩
  · intro i
    unfold stripEnd stripStart
    rw [Nat.succ_mul]
  · intro i j hij hjw hdev
    unfold stripEnd stripStart at hdev ⊢
    have hstep : (i + 1) * ceilDiv h w ≤ j * ceilDiv h w :=
      Nat.mul_le_mul_right _ (by omega)
    have hsm : (i + 1) * ceilDiv h w = i * ceilDiv h w + ceilDiv h w :=
      Nat.succ_mul _ _
    omega
  · intro i
    simp [dispatchedStrips, List.mem_filter, List.mem_range]

/-- Witness for C5 with `H = 5`, `W = 4`. -/
theorem strip_partition_witness :
    (1 ≤ 5 ∧ 1 ≤ 4) ∧
    ((∀ y, y < 5 → ∃! i, i < 4 ∧ stripStart (ceilDiv 5 4) i ≤ y ∧
        y < stripEnd (ceilDiv 5 4) 5 i) ∧
    (∀ i, stripEnd (ceilDiv 5 4) 5 i =
      min (stripStart (ceilDiv 5 4) (i + 1)) 5) ∧
    (∀ i j, i < j → j < 4 →
      stripEnd (ceilDiv 5 4) 5 i - stripStart (ceilDiv 5 4) i < ceilDiv 5 4 →
      stripEnd (ceilDiv 5 4) 5 j ≤ stripStart (ceilDiv 5 4) j) ∧
    (∀ i, i ∈ dispatchedStrips 5 4 ↔
      i < 4 ∧ stripStart (ceilDiv 5 4) i < stripEnd (ceilDiv 5 4) 5 i)) :=
  ⟨⟨by decide, by decide⟩, strip_partition 5 4 (by decide) (by decide)⟩

/-- Counterexample to C5 as stated: with `H = 5`, `W = 4`,
`ceil(H/W) = 2`, strip 2 — which is not the last strip (index 3) — is
non-empty yet has only one row, fewer than `ceil(H/W)`; so it is not
true that only the last strip can be smaller than `ceil(H/W)` or
empty. -/
theorem strip_partition_counterexample :
    ceilDiv 5 4 = 2 ∧ (2 : ℕ) ≠ 4 - 1 ∧
    stripStart (ceilDiv 5 4) 2 < stripEnd (ceilDiv 5 4) 5 2 ∧
    stripEnd (ceilDiv 5 4) 5 2 - stripStart (ceilDiv 5 4) 2 < ceilDiv 5 4 := by
  decide

/-! ### C8: completion detection -/

lemma schedStep_foldl (w : ℕ) (order : List ℕ) :
    ∀ (c : ℕ) (b : Bool),
      (order.foldl (schedStep w) (c, b)).1 = c + order.length ∧
      ((order.foldl (schedStep w) (c, b)).2 = true ↔
        b = true ∨ (c < w ∧ w ≤ c + order.length)) := by
  induction order with
  | nil => intro c b; simp
  | cons x xs ih =>
    intro c b
    simp only [List.foldl_cons, List.length_cons, schedStep]
    obtain ⟨ih1, ih2⟩ := ih (c + 1) (b || decide (c + 1 = w))
    refine ⟨by omega, ?_⟩
    rw [ih2]
    by_cases hb : b <;> simp [hb] <;> omega

lemma dispatched_length_le (h w : ℕ) : (dispatchedStrips h w).length ≤ w := by
  have := List.length_filter_le
    (fun i => decide (stripStart (ceilDiv h w) i < stripEnd (ceilDiv h w) h i))
    (List.range w)
  simpa [dispatchedStrips] using this

lemma dispatched_nodup (h w : ℕ) : (dispatchedStrips h w).Nodup :=
  (List.nodup_range w).filter _

lemma zero_mem_dispatched (h w : ℕ) (hh : 1 ≤ h) (hw : 1 ≤ w) :
    0 ∈ dispatchedStrips h w := by
  have hs1 : 1 ≤ ceilDiv h w := ceilDiv_pos h w hh hw
  simp only [dispatchedStrips, List.mem_filter, List.mem_range,
    decide_eq_true_eq]
  refine ⟨hw, ?_⟩
  unfold stripStart stripEnd
  omega

lemma dispatched_length_pos (h w : ℕ) (hh : 1 ≤ h) (hw : 1 ≤ w) :
    1 ≤ (dispatchedStrips h w).length :=
  List.length_pos_of_mem (zero_mem_dispatched h w hh hw)

/-- C8 (amended): the save action fires when the completion counter —
pre-loaded with the number of skipped (empty) strips and incremented once
per worker report — reaches `WORKER_COUNT` (not the number of dispatched
strips).  For any set of reports drawn without duplication from the
dispatched strips, the save has fired iff every dispatched strip has
reported; in particular it never fires while some dispatched strip is
still outstanding. -/
theorem completion_detection (h w : ℕ) (hh : 1 ≤ h) (hw : 1 ≤ w)
    (order : List ℕ) (hsub : ∀ i ∈ order, i ∈ dispatchedStrips h w)
    (hnd : order.Nodup) :
    ((schedRun h w order).2 = true ↔
      order.length = (dispatchedStrips h w).length) ∧
    ((schedRun h w order).2 = true →
      ∀ i ∈ dispatchedStrips h w, i ∈ order) := by
  have hD1 : 1 ≤ (dispatchedStrips h w).length :=
    dispatched_length_pos h w hh hw
  have hDw : (dispatchedStrips h w).length ≤ w := dispatched_length_le h w
  have hlen : order.length ≤ (dispatchedStrips h w).length := by
    have hcard : order.toFinset.card = order.length :=
      List.toFinset_card_of_nodup hnd
    have hcard2 : (dispatchedStrips h w).toFinset.card =
        (dispatchedStrips h w).length :=
      List.toFinset_card_of_nodup (dispatched_nodup h w)
    have hsubF : order.toFinset ⊆ (dispatchedStrips h w).toFinset := by
      intro i hi
      rw [List.mem_toFinset] at hi ⊢
      exact hsub i hi
    have := Finset.card_le_card hsubF
    omega
  obtain ⟨h1, h2⟩ := schedStep_foldl w order
    (w - (dispatchedStrips h w).length) false
  constructor
  · rw [schedRun, h2]
    constructor
    · rintro (hf | hrange)
      · exact absurd hf (by simp)
      · omega
    · intro he
      right
      omega
  · intro hsaved i hi
    rw [schedRun, h2] at hsaved
    have heq : order.length = (dispatchedStrips h w).length := by
      rcases hsaved with hf | hrange
      · exact absurd hf (by simp)
      · omega
    have hcard : order.toFinset.card = order.length :=
      List.toFinset_card_of_nodup hnd
    have hcard2 : (dispatchedStrips h w).toFinset.card =
        (dispatchedStrips h w).length :=
      List.toFinset_card_of_nodup (dispatched_nodup h w)
    have hsubF : order.toFinset ⊆ (dispatchedStrips h w).toFinset := by
      intro j hj
      rw [List.mem_toFinset] at hj ⊢
      exact hsub j hj
    have hFeq : order.toFinset = (dispatchedStrips h w).toFinset :=
      Finset.eq_of_subset_of_card_le hsubF (by omega)
    have : i ∈ order.toFinset := by
      rw [hFeq, List.mem_toFinset]
      exact hi
    rwa [List.mem_toFinset] at this

/-- Witness for C8: tile height 2, 4 workers, reports `[0, 1]`. -/
theorem completion_detection_witness :
    (1 ≤ 2 ∧ 1 ≤ 4 ∧ (∀ i ∈ [0, 1], i ∈ dispatchedStrips 2 4) ∧
      ([0, 1] : List ℕ).Nodup) ∧
    (((schedRun 2 4 [0, 1]).2 = true ↔
      ([0, 1] : List ℕ).length = (dispatchedStrips 2 4).length) ∧
    ((schedRun 2 4 [0, 1]).2 = true →
      ∀ i ∈ dispatchedStrips 2 4, i ∈ ([0, 1] : List ℕ))) :=
  ⟨⟨by decide, by decide, by decide, by decide⟩,
   completion_detection 2 4 (by decide) (by decide) [0, 1] (by decide)
     (by decide)⟩

/-- Counterexample to C8 as stated: with tile height 2 and 4 workers only
strips 0 and 1 are dispatched; the two skipped strips are pre-counted, so
before any report arrives the counter already equals the number of
dispatched strips (2), yet no save happens then — and after both
dispatched strips report, the save fires with the counter at
`WORKER_COUNT = 4`, not at the number of dispatched strips. -/
theorem completion_detection_counterexample :
    (dispatchedStrips 2 4).length = 2 ∧
    (schedRun 2 4 []).1 = 2 ∧ (schedRun 2 4 []).2 = false ∧
    (schedRun 2 4 [0, 1]).1 = 4 ∧ (schedRun 2 4 [0, 1]).2 = true ∧
    (4 : ℕ) ≠ 2 := by
  decide

/-! ### C4: strip reassembly equals a sequential render -/

lemma renderPixel_length (rlog rsqrt : ℚ → ℚ) (maxIter : ℕ) (cx cy : ℚ) :
    (renderPixel rlog rsqrt maxIter cx cy).length = 4 := by
  simp only [renderPixel]
  split
  · rfl
  · rfl

lemma renderRow_length (rlog rsqrt : ℚ → ℚ) (m : Msg) (y : ℕ) :
    (renderRow rlog rsqrt m y).length = m.tileWidth * 4 := by
  simp only [renderRow, List.length_flatten, List.map_map, Function.comp_def]
  rw [List.map_congr_left
    (fun x _ => renderPixel_length rlog rsqrt m.maxIter (cxAt m x) (cyAt m y)),
    List.map_const', List.sum_const_nat, List.length_range]

lemma rowsFlat_length (rlog rsqrt : ℚ → ℚ) (m : Msg) (a b : ℕ) :
    (rowsFlat rlog rsqrt m a b).length = (b - a) * (m.tileWidth * 4) := by
  simp only [rowsFlat, List.length_flatten, List.map_map, Function.comp_def]
  rw [List.map_congr_left
    (fun k _ => renderRow_length rlog rsqrt m (a + k)),
    List.map_const', List.sum_const_nat, List.length_range]

lemma workerRender_stripMsg (rlog rsqrt : ℚ → ℚ) (m0 : Msg) (s i : ℕ) :
    workerRender rlog rsqrt (stripMsg m0 s i) =
      rowsFlat rlog rsqrt m0 (stripStart s i) (stripEnd s m0.tileHeight i) :=
  rfl

lemma seqRender_eq_rowsFlat (rlog rsqrt : ℚ → ℚ) (m0 : Msg) :
    seqRender rlog rsqrt m0 = rowsFlat rlog rsqrt m0 0 m0.tileHeight := by
  simp [seqRender, rowsFlat]

lemma rowsFlat_append (rlog rsqrt : ℚ → ℚ) (m : Msg) (a b c : ℕ)
    (hab : a ≤ b) (hbc : b ≤ c) :
    rowsFlat rlog rsqrt m a b ++ rowsFlat rlog rsqrt m b c =
      rowsFlat rlog rsqrt m a c := by
  simp only [rowsFlat]
  rw [show c - a = (b - a) + (c - b) by omega, List.range_add,
    List.map_append, List.flatten_append]
  congr 1
  rw [List.map_map]
  congr 1
  apply List.map_congr_left
  intro k _
  simp only [Function.comp_apply]
  congr 1
  omega

lemma assemble_invariant (rlog rsqrt : ℚ → ℚ) (m0 : Msg) (w : ℕ) (n : ℕ) :
    (List.range n).foldl
      (fun buf i =>
        let s := ceilDiv m0.tileHeight w
        if stripEnd s m0.tileHeight i ≤ stripStart s i then buf
        else
          writeAt buf (stripStart s i * (m0.tileWidth * 4))
            (workerRender rlog rsqrt (stripMsg m0 s i)))
      (List.replicate (m0.tileWidth * m0.tileHeight * 4) 0) =
    rowsFlat rlog rsqrt m0 0
        (min (n * ceilDiv m0.tileHeight w) m0.tileHeight) ++
      (List.replicate (m0.tileWidth * m0.tileHeight * 4) 0).drop
        (min (n * ceilDiv m0.tileHeight w) m0.tileHeight *
          (m0.tileWidth * 4)) := by
  induction n with
  | zero => simp [rowsFlat]
  | succ n ih =>
    rw [List.range_succ, List.foldl_append, ih]
    simp only [List.foldl_cons, List.foldl_nil]
    have hsm : (n + 1) * ceilDiv m0.tileHeight w =
        n * ceilDiv m0.tileHeight w + ceilDiv m0.tileHeight w :=
      Nat.succ_mul _ _
    by_cases hskip : stripEnd (ceilDiv m0.tileHeight w) m0.tileHeight n ≤
        stripStart (ceilDiv m0.tileHeight w) n
    · rw [if_pos hskip]
      have hmin : min ((n + 1) * ceilDiv m0.tileHeight w) m0.tileHeight =
          min (n * ceilDiv m0.tileHeight w) m0.tileHeight := by
        rw [hsm]
        unfold stripEnd stripStart at hskip
        generalize n * ceilDiv m0.tileHeight w = a at hskip ⊢
        omega
      rw [hmin]
    · rw [if_neg hskip]
      unfold stripEnd stripStart at hskip
      push_neg at hskip
      have hlt : n * ceilDiv m0.tileHeight w < m0.tileHeight := by
        generalize n * ceilDiv m0.tileHeight w = a at hskip ⊢
        omega
      have hmin1 : min (n * ceilDiv m0.tileHeight w) m0.tileHeight =
          n * ceilDiv m0.tileHeight w := by omega
      have hle : n * ceilDiv m0.tileHeight w ≤
          min (n * ceilDiv m0.tileHeight w + ceilDiv m0.tileHeight w)
            m0.tileHeight := by
        generalize n * ceilDiv m0.tileHeight w = a at hskip ⊢
        omega
      have hend : min (n * ceilDiv m0.tileHeight w + ceilDiv m0.tileHeight w)
          m0.tileHeight ≤ m0.tileHeight := by omega
      have hA : (rowsFlat rlog rsqrt m0 0 (n * ceilDiv m0.tileHeight w)).length
          = n * ceilDiv m0.tileHeight w * (m0.tileWidth * 4) := by
        rw [rowsFlat_length, Nat.sub_zero]
      have hD : (rowsFlat rlog rsqrt m0 (n * ceilDiv m0.tileHeight w)
          (min (n * ceilDiv m0.tileHeight w + ceilDiv m0.tileHeight w)
            m0.tileHeight)).length =
          (min (n * ceilDiv m0.tileHeight w + ceilDiv m0.tileHeight w)
              m0.tileHeight - n * ceilDiv m0.tileHeight w) *
            (m0.tileWidth * 4) := by
        rw [rowsFlat_length]
      have hidx : n * ceilDiv m0.tileHeight w * (m0.tileWidth * 4) +
          (rowsFlat rlog rsqrt m0 (n * ceilDiv m0.tileHeight w)
            (min (n * ceilDiv m0.tileHeight w + ceilDiv m0.tileHeight w)
              m0.tileHeight)).length =
          min (n * ceilDiv m0.tileHeight w + ceilDiv m0.tileHeight w)
              m0.tileHeight * (m0.tileWidth * 4) := by
        rw [hD, ← Nat.add_mul]
        congr 1
        generalize n * ceilDiv m0.tileHeight w = a at hle ⊢
        omega
      rw [workerRender_stripMsg, hmin1]
      simp only [writeAt, stripStart, stripEnd]
      rw [hsm]
      rw [List.take_left' hA]
      rw [← List.drop_drop, List.drop_left' hA, List.drop_drop]
      rw [rowsFlat_append rlog rsqrt m0 0 (n * ceilDiv m0.tileHeight w)
        (min (n * ceilDiv m0.tileHeight w + ceilDiv m0.tileHeight w)
          m0.tileHeight) (Nat.zero_le _) hle]
      rw [hidx]

/-- C4: for a tile of positive width and height split into `W ≥ 1`
strips, copying each worker strip buffer into the tile buffer at byte
offset `startYInTile * tileWidth * 4` reproduces, after all strips are
in, exactly the byte sequence of a single sequential row-by-row render
of the whole tile. -/
theorem strip_reassembly (rlog rsqrt : ℚ → ℚ) (m0 : Msg) (w : ℕ)
    (htw : 1 ≤ m0.tileWidth) (hth : 1 ≤ m0.tileHeight) (hw : 1 ≤ w) :
    assembleTile rlog rsqrt m0 w = seqRender rlog rsqrt m0 := by
  have hws : m0.tileHeight ≤ w * ceilDiv m0.tileHeight w :=
    ceilDiv_mul_ge m0.tileHeight w hw
  have hmin : min (w * ceilDiv m0.tileHeight w) m0.tileHeight =
      m0.tileHeight := by
    generalize w * ceilDiv m0.tileHeight w = a at hws ⊢
    omega
  have hinv := assemble_invariant rlog rsqrt m0 w w
  rw [assembleTile, hinv, hmin]
  rw [List.drop_eq_nil_of_le
    (by rw [List.length_replicate]; ring_nf; omega)]
  rw [List.append_nil, seqRender_eq_rowsFlat]

/-- Witness for C4: a 2x3 tile rendered with 2 strips equals its
sequential render. -/
theorem strip_reassembly_witness :
    (1 ≤ msgC.tileWidth ∧ 1 ≤ msgC.tileHeight ∧ 1 ≤ 2) ∧
    assembleTile (fun q => q) (fun q => q) msgC 2 =
      seqRender (fun q => q) (fun q => q) msgC :=
  ⟨⟨by decide, by decide, by decide⟩,
   strip_reassembly (fun q => q) (fun q => q) msgC 2 (by decide) (by decide)
     (by decide)⟩

end Mandel
